import Mathlib

/-!
Shallow embedding of the core subsystems of `src/sedit_linux_japanese.py`:
the event bus (`add_event_listener` / `remove_event_listener` / `emit_event`),
the settings store (`save_settings`), the extension lifecycle manager
(`ExtensionManager.enable` / `disable` / `load_all` / `register_resource` /
`register_menu_item` / `_cleanup_resources`), and the debugger worker
(`SimpleGuiBdb.user_line`, `_thread_runner`, `toggle_breakpoint`).

Python dicts are embedded as association lists with first-occurrence lookup
and in-place replacement (insertion order preserved, new keys appended at the
end, matching CPython dict semantics for the operations the source performs).
Callbacks are opaque (numbered), and a callback's behaviour (whether it
raises) is a parameter of the theorems, so statements quantify over all
listener behaviours.
-/

namespace Sedit

/-- Lookup in a Python-dict-like association list (`d.get(k)`): first match. -/
def dictGet {α : Type} (m : List (String × α)) (k : String) : Option α :=
  match m with
  | [] => none
  | (k1, v) :: rest => if k1 = k then some v else dictGet rest k

/-- `d[k] = v`: replace the first binding of `k`, or append a new binding. -/
def dictSet {α : Type} (m : List (String × α)) (k : String) (v : α) :
    List (String × α) :=
  match m with
  | [] => [(k, v)]
  | (k1, v1) :: rest =>
      if k1 = k then (k, v) :: rest else (k1, v1) :: dictSet rest k v

/-- `d.setdefault(k, v)`: insert `v` at `k` only when `k` is absent. -/
def dictSetdefault {α : Type} (m : List (String × α)) (k : String) (v : α) :
    List (String × α) :=
  match dictGet m k with
  | some _ => m
  | none => m ++ [(k, v)]

/-- `od.update(d)`: fold the bindings of `d` into `od` left to right. -/
def dictUpdate {α : Type} (od d : List (String × α)) : List (String × α) :=
  d.foldl (fun m kv => dictSet m kv.1 kv.2) od

theorem dictGet_dictSet_self {α : Type} (m : List (String × α)) (k : String)
    (v : α) : dictGet (dictSet m k v) k = some v := by
  induction m with
  | nil => simp [dictSet, dictGet]
  | cons hd tl ih =>
      obtain ⟨k1, v1⟩ := hd
      by_cases h : k1 = k
      · simp [dictSet, h, dictGet]
      · simp [dictSet, h, dictGet, ih]

theorem dictGet_dictSet_ne {α : Type} (m : List (String × α)) (k k1 : String)
    (v : α) (h : k ≠ k1) : dictGet (dictSet m k v) k1 = dictGet m k1 := by
  induction m with
  | nil => simp [dictSet, dictGet, h]
  | cons hd tl ih =>
      obtain ⟨k2, v2⟩ := hd
      by_cases h2 : k2 = k
      · subst h2
        simp [dictSet, dictGet, h]
      · simp [dictSet, h2, dictGet, ih]

theorem dictSet_get_self {α : Type} (m : List (String × α)) (k : String)
    (v : α) (h : dictGet m k = some v) : dictSet m k v = m := by
  induction m with
  | nil => simp [dictGet] at h
  | cons hd tl ih =>
      obtain ⟨k1, v1⟩ := hd
      by_cases h1 : k1 = k
      · subst h1
        simp [dictGet] at h
        simp [dictSet, h]
      · simp [dictGet, h1] at h
        simp [dictSet, h1, ih h]

theorem dictGet_mem_keys {α : Type} (m : List (String × α)) (k : String)
    (v : α) (h : dictGet m k = some v) : k ∈ m.map Prod.fst := by
  induction m with
  | nil => simp [dictGet] at h
  | cons hd tl ih =>
      obtain ⟨k1, v1⟩ := hd
      by_cases h1 : k1 = k
      · subst h1; simp
      · simp [dictGet, h1] at h
        simp [ih h]

-- ---------------------------------------------------------------------------
-- Event bus (source section 2): EVENT_LISTENERS, add/remove/emit
-- ---------------------------------------------------------------------------

/-- One entry of `EVENT_LISTENERS[event]`: `(callback, owner, threaded)`.
Callbacks are opaque numbers; the owner field is `None` or a string. -/
abbrev Listener := Nat × Option String × Bool

/-- The global `EVENT_LISTENERS` dict: event name to listener list. -/
abbrev EventMap := List (String × List Listener)

/-- `add_event_listener`: `EVENT_LISTENERS.setdefault(event, []).append(...)`. -/
def add_event_listener (m : EventMap) (event : String) (callback : Nat)
    (owner : Option String) (threaded : Bool) : EventMap :=
  dictSet m event (((dictGet m event).getD []) ++ [(callback, owner, threaded)])

/-- Python truthiness of the optional `callback` argument: a function object
is always truthy, `None` is falsy. -/
def truthyCb : Option Nat → Bool
  | none => false
  | some _ => true

/-- Python truthiness of the optional `owner` argument: `None` and the empty
string are falsy. -/
def truthyOwner : Option String → Bool
  | none => false
  | some s => !(s == "")

/-- The body of `remove_event_listener`'s loop for a single entry: returns
`true` when the entry is appended to `new` (kept). Mirrors the
`if`/`elif`/`elif` chain of lines 106-112 of the source. -/
def keepEntry (callback : Option Nat) (owner : Option String)
    (e : Listener) : Bool :=
  let cb := e.1
  let own := e.2.1
  if truthyCb callback && !(some cb == callback) then true
  else if truthyOwner owner && !(own == owner) then true
  else if !(truthyCb callback) && !(truthyOwner owner) then true
  else false

/-- `remove_event_listener(event, callback=None, owner=None)`: returns with no
change when the event has no (or an empty) listener list, otherwise rebuilds
the list from the kept entries. -/
def remove_event_listener (m : EventMap) (event : String)
    (callback : Option Nat) (owner : Option String) : EventMap :=
  match dictGet m event with
  | none => m
  | some lst =>
      if lst.isEmpty then m
      else dictSet m event (lst.filter (keepEntry callback owner))

/-- How `emit_event` hands one callback off: a daemon thread, the Tk idle
queue (`root.after`), or a direct call when `root.after` raised. In every
case the call is wrapped in `_safe_call`. -/
inductive Dispatch
  | thread (cb : Nat)
  | afterIdle (cb : Nat)
  | direct (cb : Nat)
deriving DecidableEq

/-- Exceptions are carried as message strings. -/
abbrev Exc := String

/-- Python `try: body except Exception: handler`. -/
def pyTry {α : Type} (body : Except Exc α) (handler : Exc → Except Exc α) :
    Except Exc α :=
  match body with
  | .ok a => .ok a
  | .error e => handler e

/-- Invoking a listener callback; `raises` gives the behaviour of each
opaque callback. -/
def callListener (raises : Nat → Bool) (cb : Nat) : Except Exc Unit :=
  if raises cb then .error "listener exception" else .ok ()

/-- `_safe_call`: the callback runs inside `try/except`; an exception is
logged and swallowed, never re-raised. -/
def safe_call (raises : Nat → Bool) (cb : Nat) : Except Exc Unit :=
  pyTry (callListener raises cb) (fun _ => .ok ())

/-- The per-listener body of `emit_event`'s loop: an inner `try` guards the
`root.after` registration (falling back to a direct `_safe_call`), and the
outer `try ... except Exception: pass` would drop the dispatch (`none`)
were anything still to escape. `afterOk` models whether `root.after` is
available. -/
def dispatchOne (afterOk : Bool) (raises : Nat → Bool) (l : Listener) :
    Except Exc (Option Dispatch) :=
  pyTry
    (if l.2.2 then
      .ok (some (.thread l.1))
    else
      pyTry (if afterOk then .ok (some (.afterIdle l.1))
             else .error "root.after unavailable")
        (fun _ => (safe_call raises l.1).map (fun _ => some (.direct l.1))))
    (fun _ => .ok none)

/-- `emit_event(event, *args)`: iterates over a snapshot of the listener
list, dispatching each entry; the function never assigns to
`EVENT_LISTENERS`, so the (unchanged) map is returned alongside the
dispatch record. An `.error` result would mean an exception escaped to the
caller. -/
def emit_event (m : EventMap) (event : String) (afterOk : Bool)
    (raises : Nat → Bool) : EventMap × Except Exc (List Dispatch) :=
  (m, ((dictGet m event).getD []).foldlM
    (fun acc l => (dispatchOne afterOk raises l).map (fun d => acc ++ d.toList))
    [])

/-- The dispatch target `emit_event` picks for one listener entry. -/
def dispatchTarget (afterOk : Bool) (l : Listener) : Dispatch :=
  if l.2.2 then .thread l.1
  else if afterOk then .afterIdle l.1
  else .direct l.1

-- ---------------------------------------------------------------------------
-- Settings store (source section 1): SETTINGS, save_settings
-- ---------------------------------------------------------------------------

/-- `save_settings(d)`: copies the current `SETTINGS` dict, merges `d` into
the copy (skipped when `d` is falsy, i.e. empty), writes the merged dict to
disk and only then reassigns the global. The whole body sits in
`try ... except Exception: pass`, so a failing disk write (`writeOk =
false`) leaves the global untouched. Returns the new value of `SETTINGS`
and whether the write (and hence the reassignment) happened. -/
def save_settings {α : Type} (settings d : List (String × α))
    (writeOk : Bool) : List (String × α) × Bool :=
  let od := if d.isEmpty then settings else dictUpdate settings d
  if writeOk then (od, true) else (settings, false)

-- ---------------------------------------------------------------------------
-- Extension manager (source: class ExtensionManager, class ExtensionAPI)
-- ---------------------------------------------------------------------------

/-- A settings value. The manager only ever reads and stores the
`enabled_extensions` string list; every other JSON value is opaque. -/
inductive SVal
  | strList (l : List String)
  | other (tag : Nat)
deriving DecidableEq

/-- An opaque disposable resource handle. Disposal (`r.destroy()` or `r()`)
is observed through the `disposed` log of `ExtState`; dispose errors are
swallowed by `_cleanup_resources`, so a handle counts as disposed once the
attempt is made. -/
abbrev Res := Nat

/-- An action an extension hook performs through its `ExtensionAPI` facade.
The facade is constructed with the extension's own name, so every action
targets that extension's own registry slots. -/
inductive ApiAction
  | addMenuItem (label : String) (cb : Nat)
  | registerResource (r : Res)
deriving DecidableEq

/-- A `setup(api)` or `teardown(api)` hook: the facade actions it performs
in order, then whether it raises. -/
structure Hook where
  actions : List ApiAction
  raises : Bool
deriving DecidableEq

/-- A successfully imported extension module: its optional hooks. -/
structure ExtMod where
  setup : Option Hook
  teardown : Option Hook
deriving DecidableEq

/-- A registered menu item `(label, callback)`. -/
abbrev MenuItem := String × Nat

/-- The mutable state an `ExtensionManager` instance owns, together with the
global `SETTINGS` dict it reads and writes through `save_settings`, and the
observation log `disposed` of resource-disposal attempts. `loaded` maps a
name to `some mod` on import success and to `none` on import failure
(`self.loaded[name] = None`); `info` keeps the `enabled` flag of the
per-extension info dict (the `path`/`dir`/`readme` fields never influence
the lifecycle operations); `submenus` holds the names owning a derived
submenu. -/
structure ExtState where
  loaded : List (String × Option ExtMod)
  info : List (String × Bool)
  submenus : List String
  resources : List (String × List Res)
  menu_items : List (String × List MenuItem)
  settings : List (String × SVal)
  disposed : List Res
deriving DecidableEq

/-- `register_resource(name, resource)`:
`self.resources.setdefault(name, []).append(resource)`. -/
def register_resource (st : ExtState) (name : String) (r : Res) : ExtState :=
  { st with resources :=
      dictSet st.resources name (((dictGet st.resources name).getD []) ++ [r]) }

/-- `register_menu_item(name, label, callback)`:
`self.menu_items.setdefault(name, []).append((label, callback))`. -/
def register_menu_item (st : ExtState) (name : String) (label : String)
    (cb : Nat) : ExtState :=
  let items := ((dictGet st.menu_items name).getD []) ++ [(label, cb)]
  { st with menu_items := dictSet st.menu_items name items }

/-- One facade call performed by a hook, routed to the manager. -/
def applyAction (st : ExtState) (name : String) : ApiAction → ExtState
  | .addMenuItem label cb => register_menu_item st name label cb
  | .registerResource r => register_resource st name r

/-- The facade calls of a hook, in order. -/
def applyActions (st : ExtState) (name : String) (acts : List ApiAction) :
    ExtState :=
  acts.foldl (fun s a => applyAction s name a) st

/-- `_cleanup_resources(name)`: attempts disposal of every handle in
`list(self.resources.get(name, []) or [])` (errors swallowed per handle),
then `self.resources[name] = []`. -/
def cleanup_resources (st : ExtState) (name : String) : ExtState :=
  { st with disposed := st.disposed ++ ((dictGet st.resources name).getD []),
            resources := dictSet st.resources name [] }

/-- `SETTINGS.get('enabled_extensions', [])` read as a string list; the
stored value is the list `enable`/`disable`/`load_all` themselves write. -/
def getEnabledList (settings : List (String × SVal)) : List String :=
  match dictGet settings "enabled_extensions" with
  | some (.strList l) => l
  | _ => []

/-- The kind of exception `enable` can raise:
`RuntimeError('Extension not loaded')`, or a setup-hook exception
re-raised by the bare `raise`. -/
inductive ExnKind
  | notLoaded
  | hookExc
deriving DecidableEq

/-- The tail of `enable` after a successful setup hook: mark
`info[name]['enabled'] = True`, and append `name` to the persisted
`enabled_extensions` list when absent (via `save_settings`).
`build_extensions_menu()` only redraws the Tk menu from this state and is
therefore not part of the state transition. -/
def postEnable (st : ExtState) (name : String) : ExtState :=
  let st1 := { st with info := dictSet st.info name true }
  let cur := getEnabledList st1.settings
  if name ∈ cur then st1
  else { st1 with settings :=
      (save_settings st1.settings
        [("enabled_extensions", SVal.strList (cur ++ [name]))] true).1 }

/-- `enable(name)`: raises `notLoaded` when `self.loaded.get(name)` is
missing or `None`; otherwise seeds the resource and menu-item slots, runs
the optional `setup` hook (whose facade actions mutate the state even when
it then raises — the `except Exception: raise` re-raises without any
rollback), and on success runs the enabling tail. The mutated state is
returned in every case, together with the propagated exception if any. -/
def enable (st : ExtState) (name : String) : ExtState × Option ExnKind :=
  match dictGet st.loaded name with
  | none => (st, some .notLoaded)
  | some none => (st, some .notLoaded)
  | some (some mod) =>
      let st1 := { st with resources := dictSetdefault st.resources name [] }
      let st2 := { st1 with menu_items := dictSet st1.menu_items name [] }
      match mod.setup with
      | some h =>
          let st3 := applyActions st2 name h.actions
          if h.raises then (st3, some .hookExc)
          else (postEnable st3 name, none)
      | none => (postEnable st2 name, none)

/-- The tail of `disable` after a non-raising teardown hook: release the
extension's resources, clear its menu items, destroy and drop its submenu,
mark `enabled = False`, and remove the name from the persisted
`enabled_extensions` list when present. -/
def postDisable (st : ExtState) (name : String) : ExtState :=
  let st1 := cleanup_resources st name
  let st2 := { st1 with menu_items := dictSet st1.menu_items name [] }
  let st3 := { st2 with submenus := st2.submenus.erase name }
  let st4 := { st3 with info := dictSet st3.info name false }
  let cur := getEnabledList st4.settings
  if name ∈ cur then
    { st4 with settings :=
        (save_settings st4.settings
          [("enabled_extensions", SVal.strList (cur.erase name))] true).1 }
  else st4

/-- `disable(name)`: a no-op when `self.loaded.get(name)` is missing or
`None`. Otherwise the whole body runs inside one
`try ... except Exception: pass`: the optional `teardown` hook runs first,
and if it raises, the exception is swallowed there and *none* of the
remaining steps (cleanup, menu clearing, submenu destruction, the
`enabled = False` mark, persistence) execute. -/
def disable (st : ExtState) (name : String) : ExtState :=
  match dictGet st.loaded name with
  | none => st
  | some none => st
  | some (some mod) =>
      match mod.teardown with
      | some h =>
          let st1 := applyActions st name h.actions
          if h.raises then st1 else postDisable st1 name
      | none => postDisable st name

/-- `load_all()`. The import phase is parameterised by `scan`: the result of
`_scan_files` plus module import, mapping each discovered name to
`some mod` (import succeeded) or `none` (import raised; the source stores
`None` and `enabled = False`). Phases, mirroring the source: (1) disable
every currently-enabled extension (key snapshot taken up front, the
`enabled` flag re-read at each step; `disable` never raises); (2) reset
`loaded`/`info`/`menu_items`/`resources` to empty dicts (`submenus` is
*not* cleared by the source); (3) record each scanned entry, the `enabled`
flag set from the persisted `enabled_extensions` list read once after
phase 1; (4) re-enable every entry marked enabled over a snapshot of
`info.items()`, exceptions swallowed. -/
def load_all (st : ExtState) (scan : List (String × Option ExtMod)) :
    ExtState :=
  let stA := (st.info.map Prod.fst).foldl
      (fun s en => if (dictGet s.info en).getD false then disable s en else s)
      st
  let stB := { stA with loaded := [], info := [], menu_items := [],
                        resources := [] }
  let enabledL := getEnabledList stB.settings
  let stC := scan.foldl
      (fun s nm =>
        match nm.2 with
        | some m =>
            { s with loaded := dictSet s.loaded nm.1 (some m),
                     info := dictSet s.info nm.1 (decide (nm.1 ∈ enabledL)) }
        | none =>
            { s with loaded := dictSet s.loaded nm.1 none,
                     info := dictSet s.info nm.1 false }) stB
  stC.info.foldl (fun s nm => if nm.2 then (enable s nm.1).1 else s) stC

-- ---------------------------------------------------------------------------
-- Debugger (source: open_debugger — SimpleGuiBdb, _thread_runner,
-- toggle_breakpoint)
-- ---------------------------------------------------------------------------

/-- A directive supplied through `set_action` while the worker is parked. -/
inductive DbgAction
  | step
  | next
  | cont
  | quit
deriving DecidableEq

/-- A status message the worker puts on the thread-safe queue. -/
inductive DbgMsg
  | stopped (fname : String) (line : Nat)
  | error (trace : String)
  | finished
  | exited
deriving DecidableEq

/-- How the traced execution left the tracer: ran all lines, aborted with
`BdbQuit`, or parked in `user_line` with no directive left (the worker
thread blocks forever on `_wait_event.wait()`). -/
inductive TraceExit
  | completed
  | bdbquit
  | blocked
deriving DecidableEq

/-- The traced program: the line numbers its single frame executes in
order, and an optional uncaught exception raised at the end of that trace
(its detail text). `next` on a single flat frame coincides with `step`,
so both directives keep line-by-line stopping. -/
structure DbgProg where
  lines : List Nat
  exc : Option String
deriving DecidableEq

/-- `traceback.format_exc()` for an exception with the given detail line. -/
def format_exc (detail : String) : String :=
  "Traceback (most recent call last):\n" ++ detail

/-- The tracer loop: `Bdb` calls `user_line` at a line when stepping
(`contMode = false`, i.e. `stop_here`) or when the line is in `breaks`
(`break_here`). `user_line` first raises `BdbQuit` if a stop was already
requested, otherwise puts `('stopped', fname, line)` on the queue, parks
on `_wait_event.wait()` until `set_action` supplies the next directive,
and then applies it: `step`/`next` keep stepping, `continue` stops only at
breakpoints, `quit` sets `_stop_requested` and raises `BdbQuit`. Returns
the queued stop messages and how the trace ended. -/
def traceLines (fname : String) (breaks : List Nat) (dirs : List DbgAction)
    (stopReq contMode : Bool) : List Nat → List DbgMsg × TraceExit
  | [] => ([], .completed)
  | l :: rest =>
      if !contMode || breaks.contains l then
        if stopReq then ([], .bdbquit)
        else
          match dirs with
          | [] => ([.stopped fname l], .blocked)
          | a :: dirs1 =>
              match a with
              | .quit => ([.stopped fname l], .bdbquit)
              | .cont =>
                  let r := traceLines fname breaks dirs1 false true rest
                  (.stopped fname l :: r.1, r.2)
              | .step =>
                  let r := traceLines fname breaks dirs1 false false rest
                  (.stopped fname l :: r.1, r.2)
              | .next =>
                  let r := traceLines fname breaks dirs1 false false rest
                  (.stopped fname l :: r.1, r.2)
      else traceLines fname breaks dirs stopReq contMode rest

/-- `_thread_runner(source, filename)`: builds a fresh `SimpleGuiBdb` (its
`breaks` table is the first argument; the source always constructs it
empty) and runs the compiled program under it. `BdbQuit` is caught and
reported as `('exited',)`; any other exception is caught and reported as
`('error', traceback.format_exc())`; the `finally` clause *always* puts
`('finished',)` — unless the worker blocked forever inside `user_line`, in
which case nothing after the park is ever queued. Returns the full queue
content in order. -/
def thread_runner (breaks : List Nat) (prog : DbgProg) (fname : String)
    (dirs : List DbgAction) : List DbgMsg :=
  let r := traceLines fname breaks dirs false false prog.lines
  match r.2 with
  | .blocked => r.1
  | .bdbquit => r.1 ++ [.exited, .finished]
  | .completed =>
      match prog.exc with
      | some d => r.1 ++ [.error (format_exc d), .finished]
      | none => r.1 ++ [.finished]

/-- The debugger window state the button callbacks touch: the lines of the
output widget. There is no session-level breakpoint store anywhere in the
source. -/
structure DebugWin where
  outLines : List String
deriving DecidableEq

/-- `toggle_breakpoint()`: reads the cursor line, constructs a *fresh*
`bdb.Bdb()` instance, registers the breakpoint on that throwaway instance
(it is dropped on return and never reaches any session tracer), and
appends a confirmation line to the output widget. -/
def toggle_breakpoint (w : DebugWin) (line : Nat) : DebugWin :=
  let _throwawayTracerBreaks : List Nat := [line]
  { w with outLines := w.outLines ++ ["Set breakpoint " ++ toString line] }

/-- `start_debug()`: logs the start line and spawns `_thread_runner` on the
buffer source; the worker's tracer is constructed fresh with an empty
breakpoint table. Returns the updated window and the worker's message
stream for the given directive sequence. -/
def start_debug (w : DebugWin) (prog : DbgProg) (fname : String)
    (dirs : List DbgAction) : DebugWin × List DbgMsg :=
  ({ w with outLines := w.outLines ++ ["Debugger started"] },
   thread_runner [] prog fname dirs)

-- ---------------------------------------------------------------------------
-- Derived notions and concrete states used by the claims
-- ---------------------------------------------------------------------------

/-- The menu items a list of facade actions registers, in order. -/
def menuOfActs : List ApiAction → List MenuItem
  | [] => []
  | .addMenuItem label cb :: rest => (label, cb) :: menuOfActs rest
  | .registerResource _ :: rest => menuOfActs rest

/-- The menu items `enable` leaves registered for an extension whose module
is `m`: the slot is reset to `[]` and then the setup hook (if any)
registers its items. -/
def menuOfMod (m : ExtMod) : List MenuItem :=
  match m.setup with
  | none => []
  | some h => menuOfActs h.actions

/-- The teardown hook of `m` does not raise (it may be absent). -/
def teardownOk (m : ExtMod) : Prop :=
  m.teardown = none ∨ ∃ h, m.teardown = some h ∧ h.raises = false

/-- A module whose teardown hook performs no facade calls and raises. -/
def modRaisingTeardown : ExtMod :=
  { setup := none, teardown := some { actions := [], raises := true } }

/-- A module with no hooks at all. -/
def modPlain : ExtMod :=
  { setup := none, teardown := none }

/-- A module whose setup hook performs no facade calls and raises. -/
def modRaisingSetup : ExtMod :=
  { setup := some { actions := [], raises := true }, teardown := none }

/-- A module whose setup registers one menu item, and whose teardown is
absent. -/
def modGreeter : ExtMod :=
  { setup := some { actions := [ApiAction.addMenuItem "Say Hi" 7],
                    raises := false },
    teardown := none }

/-- Concrete state for C2: extension `a` enabled, one registered resource,
one registered menu item, a submenu, persisted as enabled — and a raising
teardown hook. -/
def stC2 : ExtState :=
  { loaded := [("a", some modRaisingTeardown)]
    info := [("a", true)]
    submenus := ["a"]
    resources := [("a", [5])]
    menu_items := [("a", [("L", 0)])]
    settings := [("enabled_extensions", SVal.strList ["a"])]
    disposed := [] }

/-- Concrete state for C4's counterexample: extension `a` enabled with a
registered resource `5` and a raising teardown. -/
def stC4 : ExtState :=
  { loaded := [("a", some modRaisingTeardown)]
    info := [("a", true)]
    submenus := []
    resources := [("a", [5])]
    menu_items := []
    settings := [("enabled_extensions", SVal.strList ["a"])]
    disposed := [] }

/-- Concrete state for C4's witness: extension `a` enabled with a registered
resource `5` and no teardown hook. -/
def stC4w : ExtState :=
  { loaded := [("a", some modPlain)]
    info := [("a", true)]
    submenus := []
    resources := [("a", [5])]
    menu_items := []
    settings := [("enabled_extensions", SVal.strList ["a"])]
    disposed := [] }

/-- Concrete state for C5: extension `b` loaded with a raising setup hook;
the name `x` is unknown. -/
def stC5 : ExtState :=
  { loaded := [("b", some modRaisingSetup)]
    info := [("b", false)]
    submenus := []
    resources := []
    menu_items := []
    settings := []
    disposed := [] }

/-- Concrete enabled state for C8: `greeter` enabled with its menu item
registered. -/
def stC8 : ExtState :=
  { loaded := [("greeter", some modGreeter)]
    info := [("greeter", true)]
    submenus := ["greeter"]
    resources := []
    menu_items := [("greeter", [("Say Hi", 7)])]
    settings := [("enabled_extensions", SVal.strList ["greeter"])]
    disposed := [] }

/-- Concrete freshly-loaded state for C8: `greeter` loaded, nothing
registered yet. -/
def stC8fresh : ExtState :=
  { loaded := [("greeter", some modGreeter)]
    info := [("greeter", false)]
    submenus := []
    resources := []
    menu_items := []
    settings := []
    disposed := [] }

/-- Concrete program for the debugger claims: ten straight lines, no
exception. -/
def progTen : DbgProg :=
  { lines := [1, 2, 3, 4, 5, 6, 7, 8, 9, 10], exc := none }

/-- Concrete raising program for C3: one line, then an uncaught exception. -/
def progRaise : DbgProg :=
  { lines := [1], exc := some "RuntimeError: boom" }

-- ---------------------------------------------------------------------------
-- Supporting lemmas
-- ---------------------------------------------------------------------------

theorem keepEntry_none_none (e : Listener) : keepEntry none none e = true := by
  simp [keepEntry, truthyCb, truthyOwner]

theorem dispatchOne_eq (afterOk : Bool) (raises : Nat → Bool) (l : Listener) :
    dispatchOne afterOk raises l = .ok (some (dispatchTarget afterOk l)) := by
  obtain ⟨cb, own, thd⟩ := l
  cases thd with
  | true => simp [dispatchOne, dispatchTarget, pyTry]
  | false =>
      cases afterOk with
      | true => simp [dispatchOne, dispatchTarget, pyTry]
      | false =>
          by_cases h : raises cb <;>
            simp [dispatchOne, dispatchTarget, pyTry, safe_call,
              callListener, Except.map, h]

theorem emit_fold (afterOk : Bool) (raises : Nat → Bool) (ls : List Listener)
    (acc : List Dispatch) :
    (ls.foldlM
        (fun acc l =>
          (dispatchOne afterOk raises l).map (fun d => acc ++ d.toList))
        acc : Except Exc (List Dispatch))
      = .ok (acc ++ ls.map (dispatchTarget afterOk)) := by
  induction ls generalizing acc with
  | nil =>
      simp only [List.foldlM_nil, List.map_nil, List.append_nil]
      rfl
  | cons l tl ih =>
      rw [List.foldlM_cons, dispatchOne_eq]
      have hb : ∀ (x : List Dispatch)
          (f : List Dispatch → Except Exc (List Dispatch)),
          ((Except.ok x : Except Exc (List Dispatch)) >>= f) = f x :=
        fun _ _ => rfl
      rw [show (Except.map (fun d => acc ++ d.toList)
            (.ok (some (dispatchTarget afterOk l))) : Except Exc _)
          = .ok (acc ++ [dispatchTarget afterOk l]) from rfl, hb, ih]
      simp

theorem dictGet_dictUpdate_notin {α : Type} (S d : List (String × α))
    (k : String) (h : dictGet d k = none) :
    dictGet (dictUpdate S d) k = dictGet S k := by
  induction d generalizing S with
  | nil => rfl
  | cons hd tl ih =>
      obtain ⟨k1, v1⟩ := hd
      by_cases h1 : k1 = k
      · simp [dictGet, h1] at h
      · simp [dictGet, h1] at h
        have step : dictUpdate S ((k1, v1) :: tl) =
            dictUpdate (dictSet S k1 v1) tl := rfl
        rw [step, ih _ h, dictGet_dictSet_ne _ _ _ _ h1]

end Sedit

namespace Sedit

-- ---------------------------------------------------------------------------
-- Claims about the event bus and the settings store
-- ---------------------------------------------------------------------------

/-- C1 counterexample: an event with one registered listener, unsubscribed
with neither a callback nor an owner — the listener list is *not* left
empty (the loop's final `elif not callback and not owner` branch re-appends
every entry, so nothing is removed). -/
theorem C1_counterexample :
    (dictGet (remove_event_listener [("e", [(0, none, false)])] "e" none none)
        "e").getD [] ≠ [] := by
  decide

/-- C1 (amended): calling `remove_event_listener` with neither a callback
nor an owner supplied removes nothing — the event map, and in particular
the event's listener list, is returned unchanged. -/
theorem C1_remove_all_is_noop (m : EventMap) (event : String) :
    remove_event_listener m event none none = m := by
  unfold remove_event_listener
  cases h : dictGet m event with
  | none => rfl
  | some lst =>
      cases lst with
      | nil => rfl
      | cons e rest =>
          have hf : List.filter (keepEntry none none) (e :: rest) = e :: rest :=
            List.filter_eq_self.mpr (fun a _ => keepEntry_none_none a)
          simp only [List.isEmpty_cons, Bool.false_eq_true, if_false, hf]
          exact dictSet_get_self m event (e :: rest) h

/-- C6: `emit_event` returns the listener map unchanged (it never assigns to
`EVENT_LISTENERS`, so a throwing listener does not unregister itself) and
returns `.ok` of one dispatch per registered listener in registration
order, for every listener behaviour — no listener exception reaches the
caller and no listener prevents the dispatch of a later one. -/
theorem C6_publish_isolates_listeners (m : EventMap) (event : String)
    (afterOk : Bool) (raises : Nat → Bool) :
    emit_event m event afterOk raises =
      (m, .ok (((dictGet m event).getD []).map (dispatchTarget afterOk))) := by
  unfold emit_event
  rw [emit_fold]
  simp

/-- C10: a successful `save_settings(d)` leaves every settings key outside
`d` bound exactly as before (the update merges into a copy of the current
map), and a failing disk write leaves the in-memory map untouched (the
global is only reassigned after the write succeeds). -/
theorem C10_save_settings_merges_and_is_atomic :
    (∀ (α : Type) (S d : List (String × α)) (k : String),
        dictGet d k = none →
        dictGet (save_settings S d true).1 k = dictGet S k) ∧
    (∀ (α : Type) (S d : List (String × α)),
        (save_settings S d false).1 = S) := by
  constructor
  · intro α S d k h
    unfold save_settings
    by_cases hd : d.isEmpty <;> simp [hd, dictGet_dictUpdate_notin S d k h]
  · intro α S d
    rfl

/-- C10 witness: the merge/atomicity theorem applied at a concrete map
`{a: 1}` updated with `{b: 2}`. -/
theorem C10_witness :
    dictGet (save_settings [("a", (1 : Nat))] [("b", 2)] true).1 "a"
        = dictGet [("a", (1 : Nat))] "a" ∧
    (save_settings [("a", (1 : Nat))] [("b", 2)] false).1 = [("a", 1)] :=
  ⟨C10_save_settings_merges_and_is_atomic.1 Nat [("a", 1)] [("b", 2)] "a"
      (by decide),
   C10_save_settings_merges_and_is_atomic.2 Nat [("a", 1)] [("b", 2)]⟩

-- ---------------------------------------------------------------------------
-- Extension manager lemmas
-- ---------------------------------------------------------------------------

theorem applyAction_loaded (s : ExtState) (n : String) (a : ApiAction) :
    (applyAction s n a).loaded = s.loaded := by
  cases a <;> rfl

theorem applyAction_info (s : ExtState) (n : String) (a : ApiAction) :
    (applyAction s n a).info = s.info := by
  cases a <;> rfl

theorem applyAction_disposed (s : ExtState) (n : String) (a : ApiAction) :
    (applyAction s n a).disposed = s.disposed := by
  cases a <;> rfl

theorem applyActions_loaded (acts : List ApiAction) (s : ExtState)
    (n : String) : (applyActions s n acts).loaded = s.loaded := by
  induction acts generalizing s with
  | nil => rfl
  | cons a tl ih => rw [applyActions, List.foldl_cons, ← applyActions, ih,
      applyAction_loaded]

theorem applyActions_info (acts : List ApiAction) (s : ExtState)
    (n : String) : (applyActions s n acts).info = s.info := by
  induction acts generalizing s with
  | nil => rfl
  | cons a tl ih => rw [applyActions, List.foldl_cons, ← applyActions, ih,
      applyAction_info]

theorem applyActions_disposed (acts : List ApiAction) (s : ExtState)
    (n : String) : (applyActions s n acts).disposed = s.disposed := by
  induction acts generalizing s with
  | nil => rfl
  | cons a tl ih => rw [applyActions, List.foldl_cons, ← applyActions, ih,
      applyAction_disposed]

theorem applyAction_resources_ne (s : ExtState) (n m : String)
    (a : ApiAction) (h : m ≠ n) :
    dictGet (applyAction s n a).resources m = dictGet s.resources m := by
  cases a with
  | addMenuItem label cb => rfl
  | registerResource r =>
      exact dictGet_dictSet_ne _ _ _ _ (fun hh => h hh.symm)

theorem applyActions_resources_ne (acts : List ApiAction) (s : ExtState)
    (n m : String) (h : m ≠ n) :
    dictGet (applyActions s n acts).resources m = dictGet s.resources m := by
  induction acts generalizing s with
  | nil => rfl
  | cons a tl ih => rw [applyActions, List.foldl_cons, ← applyActions, ih,
      applyAction_resources_ne _ _ _ _ h]

theorem applyAction_resources_mem (s : ExtState) (n : String) (a : ApiAction)
    (r : Res) (h : r ∈ (dictGet s.resources n).getD []) :
    r ∈ (dictGet (applyAction s n a).resources n).getD [] := by
  cases a with
  | addMenuItem label cb => exact h
  | registerResource r1 =>
      simp only [applyAction, register_resource, dictGet_dictSet_self,
        Option.getD_some]
      exact List.mem_append_left _ h

theorem applyActions_resources_mem (acts : List ApiAction) (s : ExtState)
    (n : String) (r : Res) (h : r ∈ (dictGet s.resources n).getD []) :
    r ∈ (dictGet (applyActions s n acts).resources n).getD [] := by
  induction acts generalizing s with
  | nil => exact h
  | cons a tl ih =>
      rw [applyActions, List.foldl_cons, ← applyActions]
      exact ih _ (applyAction_resources_mem _ _ _ _ h)

theorem postDisable_loaded (s : ExtState) (n : String) :
    (postDisable s n).loaded = s.loaded := by
  unfold postDisable cleanup_resources
  dsimp only
  split
  · rfl
  · rfl

theorem disable_loaded (s : ExtState) (n : String) :
    (disable s n).loaded = s.loaded := by
  unfold disable
  cases h : dictGet s.loaded n with
  | none => rfl
  | some mo =>
      cases mo with
      | none => rfl
      | some m =>
          cases ht : m.teardown with
          | none =>
              simp only [ht]
              exact postDisable_loaded s n
          | some hk =>
              simp only [ht]
              by_cases hr : hk.raises = true
              · rw [if_pos hr, applyActions_loaded]
              · rw [if_neg hr, postDisable_loaded, applyActions_loaded]

theorem postDisable_info_ne (s : ExtState) (n m : String) (h : m ≠ n) :
    dictGet (postDisable s n).info m = dictGet s.info m := by
  unfold postDisable cleanup_resources
  dsimp only
  split
  · exact dictGet_dictSet_ne _ _ _ _ (fun hh => h hh.symm)
  · exact dictGet_dictSet_ne _ _ _ _ (fun hh => h hh.symm)

theorem postDisable_resources_ne (s : ExtState) (n m : String) (h : m ≠ n) :
    dictGet (postDisable s n).resources m = dictGet s.resources m := by
  unfold postDisable cleanup_resources
  dsimp only
  split
  · exact dictGet_dictSet_ne _ _ _ _ (fun hh => h hh.symm)
  · exact dictGet_dictSet_ne _ _ _ _ (fun hh => h hh.symm)

theorem postDisable_disposed (s : ExtState) (n : String) :
    (postDisable s n).disposed
      = s.disposed ++ (dictGet s.resources n).getD [] := by
  unfold postDisable cleanup_resources
  dsimp only
  split
  · rfl
  · rfl

theorem disable_info_ne (s : ExtState) (n m : String) (h : m ≠ n) :
    dictGet (disable s n).info m = dictGet s.info m := by
  unfold disable
  cases hl : dictGet s.loaded n with
  | none => rfl
  | some mo =>
      cases mo with
      | none => rfl
      | some md =>
          cases ht : md.teardown with
          | none =>
              simp only [ht]
              exact postDisable_info_ne s n m h
          | some hk =>
              simp only [ht]
              by_cases hr : hk.raises = true
              · rw [if_pos hr, applyActions_info]
              · rw [if_neg hr, postDisable_info_ne _ _ _ h, applyActions_info]

theorem disable_resources_ne (s : ExtState) (n m : String) (h : m ≠ n) :
    dictGet (disable s n).resources m = dictGet s.resources m := by
  unfold disable
  cases hl : dictGet s.loaded n with
  | none => rfl
  | some mo =>
      cases mo with
      | none => rfl
      | some md =>
          cases ht : md.teardown with
          | none =>
              simp only [ht]
              exact postDisable_resources_ne s n m h
          | some hk =>
              simp only [ht]
              by_cases hr : hk.raises = true
              · rw [if_pos hr, applyActions_resources_ne _ _ _ _ h]
              · rw [if_neg hr, postDisable_resources_ne _ _ _ h,
                  applyActions_resources_ne _ _ _ _ h]

theorem disable_disposed_mono (s : ExtState) (n : String) (x : Res)
    (h : x ∈ s.disposed) : x ∈ (disable s n).disposed := by
  unfold disable
  cases hl : dictGet s.loaded n with
  | none => exact h
  | some mo =>
      cases mo with
      | none => exact h
      | some md =>
          cases ht : md.teardown with
          | none =>
              simp only [ht]
              rw [postDisable_disposed]
              exact List.mem_append_left _ h
          | some hk =>
              simp only [ht]
              by_cases hr : hk.raises = true
              · rw [if_pos hr, applyActions_disposed]
                exact h
              · rw [if_neg hr, postDisable_disposed, applyActions_disposed]
                exact List.mem_append_left _ h

/-- When an extension is loaded and its teardown does not raise, `disable`
reaches `_cleanup_resources`, so every currently registered resource of
that extension has its disposal attempted. -/
theorem disable_disposes (s : ExtState) (n : String) (md : ExtMod) (r : Res)
    (hl : dictGet s.loaded n = some (some md)) (htd : teardownOk md)
    (hr : r ∈ (dictGet s.resources n).getD []) :
    r ∈ (disable s n).disposed := by
  unfold disable
  rw [hl]
  rcases htd with ht | ⟨hk, ht, hraises⟩
  · simp only [ht]
    rw [postDisable_disposed]
    exact List.mem_append_right _ hr
  · simp only [ht]
    rw [if_neg (by rw [hraises]; exact Bool.false_ne_true), postDisable_disposed,
      applyActions_disposed]
    exact List.mem_append_right _ (applyActions_resources_mem _ _ _ _ hr)

theorem postEnable_menu_items (s : ExtState) (n : String) :
    (postEnable s n).menu_items = s.menu_items := by
  unfold postEnable
  dsimp only
  split
  · rfl
  · rfl

theorem postEnable_disposed (s : ExtState) (n : String) :
    (postEnable s n).disposed = s.disposed := by
  unfold postEnable
  dsimp only
  split
  · rfl
  · rfl

theorem applyAction_menu_items_acc (s : ExtState) (n : String)
    (a : ApiAction) (cur : List MenuItem)
    (h : dictGet s.menu_items n = some cur) :
    dictGet (applyAction s n a).menu_items n
      = some (cur ++ (menuOfActs [a])) := by
  cases a with
  | addMenuItem label cb =>
      simp only [applyAction, register_menu_item, dictGet_dictSet_self, h,
        Option.getD_some, menuOfActs]
  | registerResource r =>
      simp only [applyAction, register_resource, h, menuOfActs,
        List.append_nil]

theorem applyActions_menu_items (acts : List ApiAction) (s : ExtState)
    (n : String) (cur : List MenuItem)
    (h : dictGet s.menu_items n = some cur) :
    dictGet (applyActions s n acts).menu_items n
      = some (cur ++ menuOfActs acts) := by
  induction acts generalizing s cur with
  | nil =>
      simp only [applyActions, List.foldl_nil, menuOfActs, List.append_nil]
      exact h
  | cons a tl ih =>
      rw [applyActions, List.foldl_cons, ← applyActions]
      have step := applyAction_menu_items_acc s n a cur h
      have := ih (applyAction s n a) (cur ++ menuOfActs [a]) step
      rw [this]
      cases a with
      | addMenuItem label cb => simp [menuOfActs]
      | registerResource r => simp [menuOfActs]

/-- `enable` on a loaded module always leaves exactly the module's setup
items registered for that extension: the slot is reset to `[]` before the
hook runs. -/
theorem enable_menu_items (s : ExtState) (n : String) (md : ExtMod)
    (hl : dictGet s.loaded n = some (some md)) :
    dictGet ((enable s n).1).menu_items n = some (menuOfMod md) := by
  unfold enable
  rw [hl]
  cases hs : md.setup with
  | none =>
      simp only [hs]
      rw [postEnable_menu_items]
      simp [menuOfMod, hs, dictGet_dictSet_self]
  | some h =>
      simp only [hs]
      have hbase : dictGet
          (dictSet ({ s with
              resources := dictSetdefault s.resources n [] } : ExtState).menu_items
            n []) n = some [] := dictGet_dictSet_self _ _ _
      by_cases hr : h.raises = true
      · rw [if_pos hr]
        dsimp only
        rw [applyActions_menu_items _ _ _ [] (by exact hbase)]
        simp [menuOfMod, hs]
      · rw [if_neg hr]
        dsimp only
        rw [postEnable_menu_items,
          applyActions_menu_items _ _ _ [] (by exact hbase)]
        simp [menuOfMod, hs]

theorem enable_disposed (s : ExtState) (n : String) :
    ((enable s n).1).disposed = s.disposed := by
  unfold enable
  cases hl : dictGet s.loaded n with
  | none => rfl
  | some mo =>
      cases mo with
      | none => rfl
      | some md =>
          cases hs : md.setup with
          | none =>
              simp only [hs]
              rw [postEnable_disposed]
          | some h =>
              simp only [hs]
              by_cases hr : h.raises = true
              · rw [if_pos hr]
                dsimp only
                rw [applyActions_disposed]
              · rw [if_neg hr]
                dsimp only
                rw [postEnable_disposed, applyActions_disposed]

theorem enable_info_unchanged_on_raise (s : ExtState) (n : String)
    (md : ExtMod) (h : Hook) (hl : dictGet s.loaded n = some (some md))
    (hs : md.setup = some h) (hr : h.raises = true) :
    ((enable s n).1).info = s.info := by
  unfold enable
  rw [hl]
  simp only [hs, hr, if_pos]
  rw [applyActions_info]

-- ---------------------------------------------------------------------------
-- Claims about the extension lifecycle
-- ---------------------------------------------------------------------------

/-- C2 counterexample: extension `a` is enabled with a registered resource,
a registered menu item, a submenu, and a raising teardown hook. After
`disable("a")` the resource is still registered and not disposed, the menu
item is still there, the submenu still exists, the extension is still
marked enabled, and the persisted enabled-set still contains it — the
raising teardown aborts the whole `try` body, so none of the later disable
steps run. -/
theorem C2_counterexample :
    dictGet (disable stC2 "a").resources "a" = some [5] ∧
    (disable stC2 "a").disposed = [] ∧
    dictGet (disable stC2 "a").menu_items "a" = some [("L", 0)] ∧
    "a" ∈ (disable stC2 "a").submenus ∧
    dictGet (disable stC2 "a").info "a" = some true ∧
    getEnabledList (disable stC2 "a").settings = ["a"] := by
  decide

/-- C2 (amended): when a loaded extension's teardown hook raises, `disable`
swallows the exception but skips every remaining step — the resulting
state is exactly the input state with only the teardown hook's own facade
actions applied: no resource is released, no menu item cleared, no submenu
destroyed, the enabled mark and the persisted enabled-set are untouched. -/
theorem C2_teardown_failure_skips_remaining_steps (st : ExtState)
    (name : String) (md : ExtMod) (h : Hook)
    (hl : dictGet st.loaded name = some (some md))
    (ht : md.teardown = some h) (hr : h.raises = true) :
    disable st name = applyActions st name h.actions := by
  unfold disable
  rw [hl]
  simp only [ht]
  rw [if_pos hr]

/-- C2 witness: the amended theorem applied to the counterexample state. -/
theorem C2_witness : disable stC2 "a" = applyActions stC2 "a" [] :=
  C2_teardown_failure_skips_remaining_steps stC2 "a" modRaisingTeardown
    { actions := [], raises := true } (by decide) rfl rfl

/-- C5: `enable(name)` raises the extension-not-loaded error exactly when
`self.loaded.get(name)` is missing (unknown name) or `None` (module failed
to import), leaving the state untouched; and when the setup hook raises,
the exception propagates (`hookExc`) while the extension's `enabled` flag
is left exactly as it was — no rollback marks or unmarks it. -/
theorem C5_enable_error_handling :
    (∀ (st : ExtState) (name : String),
        dictGet st.loaded name = none ∨ dictGet st.loaded name = some none →
        enable st name = (st, some ExnKind.notLoaded)) ∧
    (∀ (st : ExtState) (name : String) (md : ExtMod) (h : Hook),
        dictGet st.loaded name = some (some md) → md.setup = some h →
        h.raises = true →
        (enable st name).2 = some ExnKind.hookExc ∧
        dictGet ((enable st name).1).info name = dictGet st.info name) := by
  constructor
  · intro st name hl
    unfold enable
    rcases hl with hl | hl
    · rw [hl]
    · rw [hl]
  · intro st name md h hl hs hr
    constructor
    · unfold enable
      rw [hl]
      simp only [hs]
      rw [if_pos hr]
    · rw [enable_info_unchanged_on_raise st name md h hl hs hr]

/-- C5 witness: the error-handling theorem applied to a concrete state —
the unknown name `x`, and the extension `b` whose setup raises. -/
theorem C5_witness :
    enable stC5 "x" = (stC5, some ExnKind.notLoaded) ∧
    ((enable stC5 "b").2 = some ExnKind.hookExc ∧
      dictGet ((enable stC5 "b").1).info "b" = dictGet stC5.info "b") :=
  ⟨C5_enable_error_handling.1 stC5 "x" (Or.inl (by decide)),
   C5_enable_error_handling.2 stC5 "b" modRaisingSetup
     { actions := [], raises := true } (by decide) rfl rfl⟩

/-- C8: for an extension whose module is loaded (with its fixed setup hook),
`disable` followed immediately by `enable` registers exactly the menu-item
set the module's setup registers — the same set `enable` produces on a
freshly loaded state, because `enable` resets the slot to `[]` before
running the hook. -/
theorem C8_disable_then_enable_matches_fresh_enable (st stFresh : ExtState)
    (name : String) (md : ExtMod)
    (h1 : dictGet st.loaded name = some (some md))
    (h2 : dictGet stFresh.loaded name = some (some md)) :
    dictGet ((enable (disable st name) name).1).menu_items name
        = some (menuOfMod md) ∧
    dictGet ((enable stFresh name).1).menu_items name
        = some (menuOfMod md) := by
  have hd : dictGet (disable st name).loaded name = some (some md) := by
    rw [disable_loaded]
    exact h1
  exact ⟨enable_menu_items _ _ _ hd, enable_menu_items _ _ _ h2⟩

/-- C8 witness: the idempotent-restart theorem applied to the enabled
`greeter` state versus the freshly loaded one. -/
theorem C8_witness :
    dictGet ((enable (disable stC8 "greeter") "greeter").1).menu_items
        "greeter" = some (menuOfMod modGreeter) ∧
    dictGet ((enable stC8fresh "greeter").1).menu_items "greeter"
        = some (menuOfMod modGreeter) :=
  C8_disable_then_enable_matches_fresh_enable stC8 stC8fresh "greeter"
    modGreeter (by decide) (by decide)

-- ---------------------------------------------------------------------------
-- load_all phase lemmas for C4
-- ---------------------------------------------------------------------------

theorem phase1_mono (ks : List String) (s : ExtState) (x : Res)
    (h : x ∈ s.disposed) :
    x ∈ (ks.foldl
        (fun s en => if (dictGet s.info en).getD false then disable s en
          else s) s).disposed := by
  induction ks generalizing s with
  | nil => exact h
  | cons k tl ih =>
      rw [List.foldl_cons]
      apply ih
      by_cases hc : (dictGet s.info k).getD false = true
      · rw [if_pos hc]
        exact disable_disposed_mono s k x h
      · rw [if_neg hc]
        exact h

theorem phase1_disposes (ks : List String) (s : ExtState) (name : String)
    (md : ExtMod) (r : Res) (hmem : name ∈ ks)
    (hinfo : dictGet s.info name = some true)
    (hl : dictGet s.loaded name = some (some md)) (htd : teardownOk md)
    (hr : r ∈ (dictGet s.resources name).getD []) :
    r ∈ (ks.foldl
        (fun s en => if (dictGet s.info en).getD false then disable s en
          else s) s).disposed := by
  induction ks generalizing s with
  | nil => cases hmem
  | cons k tl ih =>
      rw [List.foldl_cons]
      by_cases hk : k = name
      · subst hk
        rw [if_pos (by rw [hinfo]; rfl)]
        exact phase1_mono tl _ r (disable_disposes s k md r hl htd hr)
      · have hmem1 : name ∈ tl := by
          rcases List.mem_cons.mp hmem with hh | hh
          · exact absurd hh.symm hk
          · exact hh
        have hne : name ≠ k := fun hh => hk hh.symm
        by_cases hc : (dictGet s.info k).getD false = true
        · rw [if_pos hc]
          exact ih (disable s k) hmem1
            (by rw [disable_info_ne s k name hne]; exact hinfo)
            (by rw [disable_loaded]; exact hl)
            (by rw [disable_resources_ne s k name hne]; exact hr)
        · rw [if_neg hc]
          exact ih s hmem1 hinfo hl hr

theorem phase3_disposed (scan : List (String × Option ExtMod))
    (s : ExtState) (enabledL : List String) :
    (scan.foldl
        (fun s nm =>
          match nm.2 with
          | some m =>
              { s with loaded := dictSet s.loaded nm.1 (some m),
                       info := dictSet s.info nm.1
                         (decide (nm.1 ∈ enabledL)) }
          | none =>
              { s with loaded := dictSet s.loaded nm.1 none,
                       info := dictSet s.info nm.1 false }) s).disposed
      = s.disposed := by
  induction scan generalizing s with
  | nil => rfl
  | cons hd tl ih =>
      rw [List.foldl_cons, ih]
      cases h2 : hd.2 with
      | none => simp only [h2]
      | some m => simp only [h2]

theorem phase4_mono (items : List (String × Bool)) (s : ExtState) (x : Res)
    (h : x ∈ s.disposed) :
    x ∈ (items.foldl (fun s nm => if nm.2 then (enable s nm.1).1 else s)
        s).disposed := by
  induction items generalizing s with
  | nil => exact h
  | cons hd tl ih =>
      rw [List.foldl_cons]
      apply ih
      by_cases hc : hd.2 = true
      · rw [if_pos hc, enable_disposed]
        exact h
      · rw [if_neg hc]
        exact h

-- ---------------------------------------------------------------------------
-- C4
-- ---------------------------------------------------------------------------

/-- C4 counterexample: extension `a` is enabled, has resource `5`
registered before `load_all`, and its teardown hook raises. `load_all`
returns with the resource registry cleared but the dispose capability of
resource `5` never invoked — a previously registered resource remains
un-disposed. -/
theorem C4_counterexample :
    dictGet stC4.resources "a" = some [5] ∧
    (load_all stC4 []).disposed = [] ∧
    (load_all stC4 []).resources = [] := by
  decide

/-- C4 (amended): a resource registered before a `load_all` call is
guaranteed disposed by the time it returns only when its owning extension
is currently enabled, its module is loaded, and its teardown hook (if any)
does not raise; under those conditions every such resource has its dispose
capability invoked during the disable pass. (Resources of extensions whose
teardown raises — see the counterexample — or which are not enabled are
dropped from the cleared registry without being disposed.) -/
theorem C4_loadall_disposes_owned_by_healthy_enabled (st : ExtState)
    (scan : List (String × Option ExtMod)) (name : String) (md : ExtMod)
    (r : Res) (hinfo : dictGet st.info name = some true)
    (hl : dictGet st.loaded name = some (some md)) (htd : teardownOk md)
    (hr : r ∈ (dictGet st.resources name).getD []) :
    r ∈ (load_all st scan).disposed := by
  unfold load_all
  dsimp only
  apply phase4_mono
  rw [phase3_disposed]
  exact phase1_disposes _ st name md r (dictGet_mem_keys _ _ _ hinfo)
    hinfo hl htd hr

/-- C4 witness: the amended theorem applied to the state whose extension
`a` is enabled with resource `5` and a well-behaved (absent) teardown. -/
theorem C4_witness : (5 : Res) ∈ (load_all stC4w []).disposed :=
  C4_loadall_disposes_owned_by_healthy_enabled stC4w [] "a" modPlain 5
    (by decide) (by decide) (Or.inl rfl) (by decide)

-- ---------------------------------------------------------------------------
-- Debugger lemmas
-- ---------------------------------------------------------------------------

theorem format_exc_ne_empty (d : String) : format_exc d ≠ "" := by
  intro h
  have h1 := congrArg String.length h
  rw [format_exc, String.length_append] at h1
  have hlit : ("Traceback (most recent call last):\n").length = 35 := rfl
  have hemp : ("" : String).length = 0 := rfl
  rw [hlit, hemp] at h1
  omega

/-- Every message the tracer itself queues is a `stopped` message; `error`,
`finished` and `exited` are only appended by `_thread_runner` afterwards. -/
theorem traceLines_msgs_stopped (fname : String) (breaks : List Nat) :
    ∀ (lines : List Nat) (dirs : List DbgAction) (stopReq contMode : Bool)
      (msg : DbgMsg),
      msg ∈ (traceLines fname breaks dirs stopReq contMode lines).1 →
      ∃ l, msg = .stopped fname l := by
  intro lines
  induction lines with
  | nil =>
      intro dirs sr cm msg h
      simp [traceLines] at h
  | cons l rest ih =>
      intro dirs sr cm msg h
      simp only [traceLines] at h
      split at h
      · split at h
        · simp at h
        · split at h
          · simp at h
            exact ⟨l, h⟩
          · split at h
            · simp at h
              exact ⟨l, h⟩
            · simp only [List.mem_cons] at h
              rcases h with h | h
              · exact ⟨l, h⟩
              · exact ih _ _ _ _ h
            · simp only [List.mem_cons] at h
              rcases h with h | h
              · exact ⟨l, h⟩
              · exact ih _ _ _ _ h
            · simp only [List.mem_cons] at h
              rcases h with h | h
              · exact ⟨l, h⟩
              · exact ih _ _ _ _ h
      · exact ih _ _ _ _ h

/-- Under `continue` with an empty breakpoint table the tracer never stops
again and the program runs to completion. -/
theorem traceLines_cont_no_breaks (fname : String) :
    ∀ (lines : List Nat) (dirs : List DbgAction) (stopReq : Bool),
      traceLines fname [] dirs stopReq true lines = ([], .completed) := by
  intro lines
  induction lines with
  | nil => intro dirs sr; rfl
  | cons l rest ih =>
      intro dirs sr
      simp only [traceLines, Bool.not_true, List.contains, List.elem_nil,
        Bool.false_or, Bool.or_false]
      exact ih dirs sr

-- ---------------------------------------------------------------------------
-- C3, C7, C9
-- ---------------------------------------------------------------------------

/-- C3 counterexample: a debug session on a program whose execution raises
an uncaught exception (one traced line, then a raise), driven by a single
`continue` directive, produces a stream that contains the Errored message
*and* a Finished message: the worker's `finally` clause queues
`('finished',)` unconditionally. -/
theorem C3_counterexample :
    DbgMsg.error (format_exc "RuntimeError: boom")
        ∈ thread_runner [] progRaise "<string>" [DbgAction.cont] ∧
    DbgMsg.finished
        ∈ thread_runner [] progRaise "<string>" [DbgAction.cont] := by
  decide

/-- C3 (amended): when the traced program raises an uncaught exception and
the tracer runs to completion, the status stream contains an Errored
message carrying the (always non-empty) formatted traceback — but it also
contains a Finished message, queued unconditionally by the worker's
`finally` clause after the error message. -/
theorem C3_uncaught_exception_errored_then_finished (breaks : List Nat)
    (prog : DbgProg) (fname : String) (dirs : List DbgAction) (d : String)
    (hexc : prog.exc = some d)
    (hcomp : (traceLines fname breaks dirs false false prog.lines).2
        = .completed) :
    DbgMsg.error (format_exc d) ∈ thread_runner breaks prog fname dirs ∧
    format_exc d ≠ "" ∧
    DbgMsg.finished ∈ thread_runner breaks prog fname dirs := by
  unfold thread_runner
  dsimp only
  rw [hcomp, hexc]
  dsimp only
  refine ⟨?_, format_exc_ne_empty d, ?_⟩
  · exact List.mem_append_right _ (by simp)
  · exact List.mem_append_right _ (by simp)

/-- C3 witness: the amended theorem at the concrete raising program. -/
theorem C3_witness :
    DbgMsg.error (format_exc "RuntimeError: boom")
        ∈ thread_runner [] progRaise "<string>" [DbgAction.cont] ∧
    format_exc "RuntimeError: boom" ≠ "" ∧
    DbgMsg.finished
        ∈ thread_runner [] progRaise "<string>" [DbgAction.cont] :=
  C3_uncaught_exception_errored_then_finished [] progRaise "<string>"
    [DbgAction.cont] "RuntimeError: boom" rfl (by decide)

/-- C7: whenever the tracer run ends in `BdbQuit` — which is what a `quit`
directive supplied while the worker is parked in `Stopped` produces — the
worker catches the sentinel and queues `('exited',)`: the stream contains
an Exited message and no Errored message at all. -/
theorem C7_quit_reclassified_as_exited (breaks : List Nat) (prog : DbgProg)
    (fname : String) (dirs : List DbgAction)
    (hq : (traceLines fname breaks dirs false false prog.lines).2
        = .bdbquit) :
    DbgMsg.exited ∈ thread_runner breaks prog fname dirs ∧
    ∀ t, DbgMsg.error t ∉ thread_runner breaks prog fname dirs := by
  unfold thread_runner
  dsimp only
  rw [hq]
  dsimp only
  constructor
  · exact List.mem_append_right _ (by simp)
  · intro t hmem
    rcases List.mem_append.mp hmem with hmem | hmem
    · obtain ⟨l, hl⟩ := traceLines_msgs_stopped fname breaks prog.lines dirs
        false false _ hmem
      simp at hl
    · simp at hmem

/-- C7 witness: a ten-line program with the `quit` directive supplied at the
first stop. -/
theorem C7_witness :
    DbgMsg.exited ∈ thread_runner [] progTen "<string>" [DbgAction.quit] ∧
    ∀ t, DbgMsg.error t
        ∉ thread_runner [] progTen "<string>" [DbgAction.quit] :=
  C7_quit_reclassified_as_exited [] progTen "<string>" [DbgAction.quit]
    (by decide)

/-- C9: `toggle_breakpoint` before a session changes nothing the session
reads (the breakpoint lands on a throwaway tracer instance), so the
subsequent session's message stream is identical with or without the
toggle; on a program that raises no exception, driven by `continue` at the
first stop, the session stops once at the first traced line, reaches
Finished, and in particular never stops at the toggled line when that line
is not the first one. -/
theorem C9_toggle_breakpoint_no_session_effect (w : DebugWin) (line : Nat)
    (prog : DbgProg) (fname : String) (dirs : List DbgAction) (l0 : Nat)
    (rest : List Nat) (hlines : prog.lines = l0 :: rest)
    (hexc : prog.exc = none) :
    (start_debug (toggle_breakpoint w line) prog fname dirs).2
        = (start_debug w prog fname dirs).2 ∧
    (start_debug (toggle_breakpoint w line) prog fname [DbgAction.cont]).2
        = [DbgMsg.stopped fname l0, DbgMsg.finished] ∧
    (line ≠ l0 →
      DbgMsg.stopped fname line ∉
        (start_debug (toggle_breakpoint w line) prog fname
          [DbgAction.cont]).2) := by
  have hstream :
      (start_debug (toggle_breakpoint w line) prog fname [DbgAction.cont]).2
        = [DbgMsg.stopped fname l0, DbgMsg.finished] := by
    show thread_runner [] prog fname [DbgAction.cont]
        = [DbgMsg.stopped fname l0, DbgMsg.finished]
    have hstep : traceLines fname [] [DbgAction.cont] false false (l0 :: rest)
        = ([DbgMsg.stopped fname l0], TraceExit.completed) := by
      simp [traceLines, traceLines_cont_no_breaks]
    unfold thread_runner
    dsimp only
    rw [hlines, hstep, hexc]
    rfl
  refine ⟨rfl, hstream, fun hne hmem => ?_⟩
  rw [hstream] at hmem
  simp only [List.mem_cons, List.mem_singleton] at hmem
  rcases hmem with hmem | hmem | hmem
  · exact hne (by injection hmem)
  · cases hmem
  · cases hmem

/-- C9 witness: breakpoint toggled at line 7 of an unstarted session, then a
ten-line exception-free program started; the stream is unchanged by the
toggle, reaches Finished, and never stops at line 7. -/
theorem C9_witness :
    (start_debug (toggle_breakpoint { outLines := [] } 7) progTen "<string>"
        [DbgAction.step]).2
      = (start_debug { outLines := [] } progTen "<string>"
          [DbgAction.step]).2 ∧
    (start_debug (toggle_breakpoint { outLines := [] } 7) progTen "<string>"
        [DbgAction.cont]).2
      = [DbgMsg.stopped "<string>" 1, DbgMsg.finished] ∧
    DbgMsg.stopped "<string>" 7 ∉
      (start_debug (toggle_breakpoint { outLines := [] } 7) progTen
        "<string>" [DbgAction.cont]).2 :=
  ⟨(C9_toggle_breakpoint_no_session_effect { outLines := [] } 7 progTen
      "<string>" [DbgAction.step] 1 [2, 3, 4, 5, 6, 7, 8, 9, 10] rfl rfl).1,
   (C9_toggle_breakpoint_no_session_effect { outLines := [] } 7 progTen
      "<string>" [DbgAction.step] 1 [2, 3, 4, 5, 6, 7, 8, 9, 10] rfl rfl).2.1,
   (C9_toggle_breakpoint_no_session_effect { outLines := [] } 7 progTen
      "<string>" [DbgAction.step] 1 [2, 3, 4, 5, 6, 7, 8, 9, 10] rfl
      rfl).2.2 (by decide)⟩

end Sedit
